import Mathlib

/-!
Shallow embedding of the retry-with-backoff executor from the repository
(package utils: RetryOptions, DefaultRetryOptions, Retry, RetryWithResult).

Modelling choices:
* Go errors are modelled by an arbitrary type E of operation-error values.
  A value returned by Retry is Option (RErr E): none models a nil error,
  some (RErr.op e) models an error produced by the operation, and
  some RErr.canceled models the sentinel value ctx.Err() returned when the
  select chooses the ctx.Done() channel.
* The zero-argument Go closure fn (which may be stateful across calls) is
  modelled as a function of the invocation index: fn i is the outcome of the
  i-th invocation (none = nil error, some e = error e).  For RetryWithResult,
  fn i is the (value, error) pair of the i-th invocation.
* time.Duration values are Int (nanoseconds).  float64 arithmetic on delays
  is modelled exactly over the rationals; the conversion time.Duration(x)
  from float64 back to int64 truncates toward zero, modelled by truncQ.
  int64 overflow of the conversion is not modelled.
* The source of randomness (rand.Float64() in [0,1)) is modelled as an
  explicit stream rnd : Nat -> Rat indexed by the attempt number.
* The context is modelled as ctx : Nat -> Bool, where ctx attempt = true
  means the ctx.Done() branch of the select wins during the wait that
  follows invocation number attempt (the context is done before the
  time.After timer fires); ctx attempt = false means the timer branch wins
  and the full wait completes.  A context already cancelled when Retry is
  called is fun _ => true.
* Besides the Go return value, the embedding also returns the number of
  invocations of fn actually performed and the list of completed waits,
  which are the observable quantities the specification talks about.
-/

namespace RetryPkg

/-- Result-error values of the executor: an error produced by the operation
(an arbitrary Go error), or the distinct cancellation sentinel ctx.Err(). -/
inductive RErr (E : Type) : Type where
  | op : E → RErr E
  | canceled : RErr E
deriving DecidableEq

/-- RetryOptions configures the retry behavior (struct RetryOptions in the
source).  MaxRetries is a Go int; BaseDelay and MaxDelay are time.Duration
(int64 nanoseconds); Factor and Jitter are float64, modelled as rationals;
RetryableFunc is a nil-able Go function value, modelled as an Option. -/
structure RetryOptions (E : Type) where
  MaxRetries : Int
  BaseDelay : Int
  MaxDelay : Int
  Factor : ℚ
  Jitter : ℚ
  RetryableFunc : Option (E → Bool)

/-- DefaultRetryOptions provides sensible default retry options (the default
RetryableFunc, func(err error) bool { return err != nil }, always sees a
non-nil error in this embedding, hence fun _ => true). -/
def DefaultRetryOptions (E : Type) : RetryOptions E where
  MaxRetries := 3
  BaseDelay := 100000000
  MaxDelay := 10000000000
  Factor := 3 / 2
  Jitter := 1 / 5
  RetryableFunc := some fun _ => true

/-- Go conversion of a float64 value to an integer type truncates toward
zero; truncQ is that truncation for the exact rational model. -/
def truncQ (q : ℚ) : Int :=
  if 0 ≤ q then q.floor else -((-q).floor)

/-- The jitter multiplier computed at the top of each iteration:
jitter := 1.0; if opts.Jitter > 0 { jitter = 1.0 + (rand.Float64()*2-1)*opts.Jitter }.
r stands for the rand.Float64() draw of this iteration. -/
def jitterMul {E : Type} (opts : RetryOptions E) (r : ℚ) : ℚ :=
  if 0 < opts.Jitter then 1 + (r * 2 - 1) * opts.Jitter else 1

/-- nextDelay := time.Duration(float64(currentDelay) * opts.Factor * jitter);
if nextDelay > opts.MaxDelay { nextDelay = opts.MaxDelay }. -/
def nextDelayCalc {E : Type} (opts : RetryOptions E) (currentDelay : Int) (r : ℚ) : Int :=
  let nextDelay := truncQ ((currentDelay : ℚ) * opts.Factor * jitterMul opts r)
  if nextDelay > opts.MaxDelay then opts.MaxDelay else nextDelay

/-- The condition under which the loop body returns err right after the call:
err == nil is handled by matching on fn, and this is the remaining conjunct
opts.RetryableFunc != nil && !opts.RetryableFunc(err). -/
def nonRetryable {E : Type} (opts : RetryOptions E) (e : E) : Bool :=
  match opts.RetryableFunc with
  | some p => !(p e)
  | none => false

/-- The loop for attempt := 0; attempt <= opts.MaxRetries; attempt++ of Retry.
Arguments past rnd: the attempt counter, the currentDelay variable, the err
variable carried from the previous iteration, and a termination fuel.  Retry
supplies enough fuel that the fuel-0 base case is reached only with the loop
condition already false; both exits return the carried err variable, as the
source does after the loop.  The result is (returned error, number of fn
invocations performed, list of completed waits). -/
def retryLoop {E : Type} (fn : Nat → Option E) (opts : RetryOptions E)
    (ctx : Nat → Bool) (rnd : Nat → ℚ) :
    Nat → Int → Option E → Nat → Option (RErr E) × Nat × List Int
  | _, _, lastErr, 0 => (lastErr.map RErr.op, 0, [])
  | attempt, currentDelay, lastErr, fuel + 1 =>
    if opts.MaxRetries < (attempt : Int) then (lastErr.map RErr.op, 0, [])
    else
      match fn attempt with
      | none => (none, 1, [])
      | some e =>
        if nonRetryable opts e then (some (RErr.op e), 1, [])
        else if (attempt : Int) = opts.MaxRetries then (some (RErr.op e), 1, [])
        else
          let nd := nextDelayCalc opts currentDelay (rnd attempt)
          if ctx attempt then (some RErr.canceled, 1, [])
          else
            let rest := retryLoop fn opts ctx rnd (attempt + 1) nd (some e) fuel
            (rest.1, rest.2.1 + 1, nd :: rest.2.2)

/-- Retry executes the given function with exponential backoff retry logic.
Before the loop: var err error (nil), currentDelay := opts.BaseDelay.
The fuel opts.MaxRetries.toNat + 1 is one unit per loop iteration that can
occur, plus one so the loop-condition test itself decides every exit. -/
def Retry {E : Type} (ctx : Nat → Bool) (fn : Nat → Option E)
    (opts : RetryOptions E) (rnd : Nat → ℚ) : Option (RErr E) × Nat × List Int :=
  retryLoop fn opts ctx rnd 0 opts.BaseDelay none (opts.MaxRetries.toNat + 1)

/-- The loop of RetryWithResult: identical to retryLoop except that each
invocation also produces a result value, carried in the result variable. -/
def retryWithResultLoop {T E : Type} (fn : Nat → T × Option E) (opts : RetryOptions E)
    (ctx : Nat → Bool) (rnd : Nat → ℚ) :
    Nat → Int → T → Option E → Nat → (T × Option (RErr E)) × Nat × List Int
  | _, _, lastRes, lastErr, 0 => ((lastRes, lastErr.map RErr.op), 0, [])
  | attempt, currentDelay, lastRes, lastErr, fuel + 1 =>
    if opts.MaxRetries < (attempt : Int) then ((lastRes, lastErr.map RErr.op), 0, [])
    else
      let call := fn attempt
      match call.2 with
      | none => ((call.1, none), 1, [])
      | some e =>
        if nonRetryable opts e then ((call.1, some (RErr.op e)), 1, [])
        else if (attempt : Int) = opts.MaxRetries then ((call.1, some (RErr.op e)), 1, [])
        else
          let nd := nextDelayCalc opts currentDelay (rnd attempt)
          if ctx attempt then ((call.1, some RErr.canceled), 1, [])
          else
            let rest := retryWithResultLoop fn opts ctx rnd (attempt + 1) nd call.1 (some e) fuel
            (rest.1, rest.2.1 + 1, nd :: rest.2.2)

/-- RetryWithResult is like Retry but for functions that return a value and
an error.  zero is the zero value of T (var result T). -/
def RetryWithResult {T E : Type} (ctx : Nat → Bool) (fn : Nat → T × Option E)
    (opts : RetryOptions E) (rnd : Nat → ℚ) (zero : T) :
    (T × Option (RErr E)) × Nat × List Int :=
  retryWithResultLoop fn opts ctx rnd 0 opts.BaseDelay zero none (opts.MaxRetries.toNat + 1)

/-- Helper: if every invocation fails and is never gated out as
non-retryable, and the context never cancels a wait, then the loop started
at a given attempt uses up all its fuel, performing one invocation per unit
of fuel, and returns the error of the last invocation. -/
theorem retryLoop_allFail {E : Type} (opts : RetryOptions E) (ctx : Nat → Bool)
    (fn : Nat → Option E) (rnd : Nat → ℚ) (n : Nat) (errs : Nat → E)
    (hm : opts.MaxRetries = (n : Int))
    (hfn : ∀ i, fn i = some (errs i))
    (hr : ∀ i, nonRetryable opts (errs i) = false)
    (hc : ∀ i, ctx i = false) :
    ∀ fuel attempt cd le, attempt + fuel = n + 1 → attempt ≤ n →
      (retryLoop fn opts ctx rnd attempt cd le fuel).1 = some (RErr.op (errs n)) ∧
      (retryLoop fn opts ctx rnd attempt cd le fuel).2.1 = fuel := by
  intro fuel
  induction fuel with
  | zero => intro attempt cd le hsum hle; omega
  | succ fuel ih =>
    intro attempt cd le hsum hle
    have hlt : ¬ opts.MaxRetries < (attempt : Int) := by
      rw [hm]; exact not_lt.mpr (by exact_mod_cast hle)
    by_cases hA : attempt = n
    · have hfuel : fuel = 0 := by omega
      subst hA hfuel
      simp [retryLoop, hlt, hfn attempt, hr attempt, hm]
    · have hA2 : ¬ ((attempt : Int) = opts.MaxRetries) := by
        rw [hm]; exact_mod_cast hA
      have ih2 := ih (attempt + 1) (nextDelayCalc opts cd (rnd attempt))
        (some (errs attempt)) (by omega) (by omega)
      simp [retryLoop, hlt, hfn attempt, hr attempt, hA2, hc attempt, ih2.1, ih2.2]

/-- C1: with MaxRetries = n (n >= 0), an operation whose every invocation
fails with a failure the retryability gate lets through, and a context that
never cancels, Retry invokes the operation exactly n+1 times and returns the
error of the last (index n) invocation unchanged. -/
theorem retry_always_failing_exhausts {E : Type} (opts : RetryOptions E)
    (ctx : Nat → Bool) (fn : Nat → Option E) (rnd : Nat → ℚ) (n : Nat) (errs : Nat → E)
    (hm : opts.MaxRetries = (n : Int))
    (hfn : ∀ i, fn i = some (errs i))
    (hr : ∀ i, nonRetryable opts (errs i) = false)
    (hc : ∀ i, ctx i = false) :
    (Retry ctx fn opts rnd).2.1 = n + 1 ∧
    (Retry ctx fn opts rnd).1 = some (RErr.op (errs n)) := by
  have h := retryLoop_allFail opts ctx fn rnd n errs hm hfn hr hc
    (n + 1) 0 opts.BaseDelay none (by omega) (by omega)
  unfold Retry
  rw [hm, Int.toNat_natCast]
  exact ⟨h.2, h.1⟩

/-- Witness for C1 at a concrete input: MaxRetries = 2, errors are the
attempt indices, context never cancelled: 3 invocations, last error is 2. -/
theorem retry_always_failing_exhausts_witness :
    (Retry (fun _ => false) (fun i => some i)
        (⟨2, 5, 50, 2, 0, some fun _ => true⟩ : RetryOptions Nat) (fun _ => 0)).2.1 = 2 + 1 ∧
    (Retry (fun _ => false) (fun i => some i)
        (⟨2, 5, 50, 2, 0, some fun _ => true⟩ : RetryOptions Nat) (fun _ => 0)).1
      = some (RErr.op 2) :=
  retry_always_failing_exhausts ⟨2, 5, 50, 2, 0, some fun _ => true⟩
    (fun _ => false) (fun i => some i) (fun _ => 0) 2 (fun i => i)
    rfl (fun _ => rfl) (fun _ => rfl) (fun _ => rfl)

/-- Helper: if invocations before k fail retryably with no cancellation and
invocation k succeeds, the loop started at attempt <= k performs the
remaining k - attempt + 1 invocations, returns nil, and completes exactly
k - attempt further waits. -/
theorem retryLoop_succeedsAt {E : Type} (opts : RetryOptions E) (ctx : Nat → Bool)
    (fn : Nat → Option E) (rnd : Nat → ℚ) (m k : Nat) (errs : Nat → E)
    (hm : opts.MaxRetries = (m : Int)) (hk : k ≤ m)
    (hfn : ∀ i, i < k → fn i = some (errs i))
    (hs : fn k = none)
    (hr : ∀ i, i < k → nonRetryable opts (errs i) = false)
    (hc : ∀ i, i < k → ctx i = false) :
    ∀ fuel attempt cd le, attempt + fuel = m + 1 → attempt ≤ k →
      (retryLoop fn opts ctx rnd attempt cd le fuel).1 = none ∧
      (retryLoop fn opts ctx rnd attempt cd le fuel).2.1 = k - attempt + 1 ∧
      (retryLoop fn opts ctx rnd attempt cd le fuel).2.2.length = k - attempt := by
  intro fuel
  induction fuel with
  | zero => intro attempt cd le hsum hle; omega
  | succ fuel ih =>
    intro attempt cd le hsum hle
    have hlt : ¬ opts.MaxRetries < (attempt : Int) := by
      rw [hm]; exact not_lt.mpr (by exact_mod_cast le_trans hle hk)
    by_cases hA : attempt = k
    · subst hA
      simp [retryLoop, hlt, hs]
    · have hak : attempt < k := lt_of_le_of_ne hle hA
      have hA2 : ¬ ((attempt : Int) = opts.MaxRetries) := by
        rw [hm]; exact_mod_cast Nat.ne_of_lt (lt_of_lt_of_le hak hk)
      have ih2 := ih (attempt + 1) (nextDelayCalc opts cd (rnd attempt))
        (some (errs attempt)) (by omega) (by omega)
      refine ⟨?_, ?_, ?_⟩ <;>
        simp [retryLoop, hlt, hfn attempt hak, hr attempt hak, hA2, hc attempt hak,
          ih2.1, ih2.2.1, ih2.2.2] <;> omega

/-- C3: if the operation fails retryably on invocations 0 .. k-1 and succeeds
on invocation k (k <= MaxRetries), Retry performs exactly k+1 invocations,
returns the success (nil error) immediately, and completes exactly k waits,
none after the successful invocation. -/
theorem retry_success_at_k {E : Type} (opts : RetryOptions E) (ctx : Nat → Bool)
    (fn : Nat → Option E) (rnd : Nat → ℚ) (m k : Nat) (errs : Nat → E)
    (hm : opts.MaxRetries = (m : Int)) (hk : k ≤ m)
    (hfn : ∀ i, i < k → fn i = some (errs i))
    (hs : fn k = none)
    (hr : ∀ i, i < k → nonRetryable opts (errs i) = false)
    (hc : ∀ i, i < k → ctx i = false) :
    (Retry ctx fn opts rnd).1 = none ∧
    (Retry ctx fn opts rnd).2.1 = k + 1 ∧
    (Retry ctx fn opts rnd).2.2.length = k := by
  have h := retryLoop_succeedsAt opts ctx fn rnd m k errs hm hk hfn hs hr hc
    (m + 1) 0 opts.BaseDelay none (by omega) (by omega)
  unfold Retry
  rw [hm, Int.toNat_natCast]
  simpa using h

/-- Witness for C3 at a concrete input: MaxRetries = 4, failures on
invocations 0 and 1, success on invocation 2: nil result, 3 invocations,
2 completed waits. -/
theorem retry_success_at_k_witness :
    (Retry (fun _ => false) (fun i => if i < 2 then some i else none)
        (⟨4, 5, 50, 2, 0, some fun _ => true⟩ : RetryOptions Nat) (fun _ => 0)).1 = none ∧
    (Retry (fun _ => false) (fun i => if i < 2 then some i else none)
        (⟨4, 5, 50, 2, 0, some fun _ => true⟩ : RetryOptions Nat) (fun _ => 0)).2.1 = 2 + 1 ∧
    (Retry (fun _ => false) (fun i => if i < 2 then some i else none)
        (⟨4, 5, 50, 2, 0, some fun _ => true⟩ : RetryOptions Nat) (fun _ => 0)).2.2.length = 2 :=
  retry_success_at_k ⟨4, 5, 50, 2, 0, some fun _ => true⟩ (fun _ => false)
    (fun i => if i < 2 then some i else none) (fun _ => 0) 4 2 (fun i => i)
    rfl (by omega) (fun i hi => by simp [hi]) (by simp) (fun _ _ => rfl) (fun _ _ => rfl)

/-- C5: if the first invocation fails with an error the caller's predicate
classifies as non-retryable, Retry returns that error after exactly one
invocation, with no wait, regardless of how large MaxRetries is. -/
theorem retry_nonretryable_single_attempt {E : Type} (opts : RetryOptions E)
    (ctx : Nat → Bool) (fn : Nat → Option E) (rnd : Nat → ℚ) (e : E) (p : E → Bool)
    (h0 : 0 ≤ opts.MaxRetries)
    (hfn : fn 0 = some e)
    (hp : opts.RetryableFunc = some p)
    (hpe : p e = false) :
    Retry ctx fn opts rnd = (some (RErr.op e), 1, []) := by
  have hlt : ¬ opts.MaxRetries < ((0 : Nat) : Int) := by
    rw [Nat.cast_zero]; exact not_lt.mpr h0
  simp [Retry, retryLoop, hlt, hfn, nonRetryable, hp, hpe, h0]

/-- Witness for C5 at a concrete input: MaxRetries = 1000, error 7 rejected
by the predicate: Retry stops after one invocation, no waits. -/
theorem retry_nonretryable_single_attempt_witness :
    Retry (fun _ => false) (fun _ => some 7)
        (⟨1000, 5, 50, 2, 0, some fun e => decide (e ≠ 7)⟩ : RetryOptions Nat)
        (fun _ => 0)
      = (some (RErr.op 7), 1, []) :=
  retry_nonretryable_single_attempt ⟨1000, 5, 50, 2, 0, some fun e => decide (e ≠ 7)⟩
    (fun _ => false) (fun _ => some 7) (fun _ => 0) 7 (fun e => decide (e ≠ 7))
    (by norm_num) rfl rfl (by simp)

/-- Helper: the loop of RetryWithResult agrees with the loop of Retry run on
the error projection of the operation, in returned error, invocation count
and completed waits, whatever value is carried in the result variable. -/
theorem retryWithResultLoop_eq {T E : Type} (fn : Nat → T × Option E)
    (opts : RetryOptions E) (ctx : Nat → Bool) (rnd : Nat → ℚ) :
    ∀ fuel attempt cd lr le,
      (retryWithResultLoop fn opts ctx rnd attempt cd lr le fuel).1.2
        = (retryLoop (fun i => (fn i).2) opts ctx rnd attempt cd le fuel).1 ∧
      (retryWithResultLoop fn opts ctx rnd attempt cd lr le fuel).2
        = (retryLoop (fun i => (fn i).2) opts ctx rnd attempt cd le fuel).2 := by
  intro fuel
  induction fuel with
  | zero => intro attempt cd lr le; simp [retryLoop, retryWithResultLoop]
  | succ fuel ih =>
    intro attempt cd lr le
    by_cases hlt : opts.MaxRetries < (attempt : Int)
    · simp [retryLoop, retryWithResultLoop, hlt]
    · cases hf : (fn attempt).2 with
      | none => simp [retryLoop, retryWithResultLoop, hlt, hf]
      | some e =>
        by_cases hnr : nonRetryable opts e = true
        · simp [retryLoop, retryWithResultLoop, hlt, hf, hnr]
        · by_cases hA : (attempt : Int) = opts.MaxRetries
          · simp [retryLoop, retryWithResultLoop, hlt, hf, hnr, hA]
          · by_cases hctx : ctx attempt = true
            · simp [retryLoop, retryWithResultLoop, hlt, hf, hnr, hA, hctx]
            · have ih2 := ih (attempt + 1) (nextDelayCalc opts cd (rnd attempt))
                (fn attempt).1 (some e)
              simp [retryLoop, retryWithResultLoop, hlt, hf, hnr, hA, hctx,
                ih2.1, ih2.2]

/-- C7: RetryWithResult is the same algorithm as Retry parameterized by the
result type: for every context, options, operation and randomness stream, it
performs the same number of invocations, completes the same waits, and
returns the same error that Retry returns on the error projection of the
operation. -/
theorem retryWithResult_same_algorithm {T E : Type} (ctx : Nat → Bool)
    (fn : Nat → T × Option E) (opts : RetryOptions E) (rnd : Nat → ℚ) (zero : T) :
    (RetryWithResult ctx fn opts rnd zero).1.2
      = (Retry ctx (fun i => (fn i).2) opts rnd).1 ∧
    (RetryWithResult ctx fn opts rnd zero).2.1
      = (Retry ctx (fun i => (fn i).2) opts rnd).2.1 ∧
    (RetryWithResult ctx fn opts rnd zero).2.2
      = (Retry ctx (fun i => (fn i).2) opts rnd).2.2 := by
  have h := retryWithResultLoop_eq fn opts ctx rnd (opts.MaxRetries.toNat + 1)
    0 opts.BaseDelay zero none
  exact ⟨h.1, congrArg Prod.fst h.2, congrArg (fun x => x.2) h.2⟩

/-- Helper: if invocations 0 .. j fail retryably, the context lets the waits
before j complete but cancels the wait after invocation j, and j is not the
last allowed attempt, then the loop returns the cancellation sentinel after
j - attempt + 1 further invocations and j - attempt completed waits. -/
theorem retryLoop_cancelAt {E : Type} (opts : RetryOptions E) (ctx : Nat → Bool)
    (fn : Nat → Option E) (rnd : Nat → ℚ) (m j : Nat) (errs : Nat → E)
    (hm : opts.MaxRetries = (m : Int)) (hj : j < m)
    (hfn : ∀ i, i ≤ j → fn i = some (errs i))
    (hr : ∀ i, i ≤ j → nonRetryable opts (errs i) = false)
    (hc : ∀ i, i < j → ctx i = false)
    (hcj : ctx j = true) :
    ∀ fuel attempt cd le, attempt + fuel = m + 1 → attempt ≤ j →
      (retryLoop fn opts ctx rnd attempt cd le fuel).1 = some RErr.canceled ∧
      (retryLoop fn opts ctx rnd attempt cd le fuel).2.1 = j - attempt + 1 ∧
      (retryLoop fn opts ctx rnd attempt cd le fuel).2.2.length = j - attempt := by
  intro fuel
  induction fuel with
  | zero => intro attempt cd le hsum hle; omega
  | succ fuel ih =>
    intro attempt cd le hsum hle
    have hlt : ¬ opts.MaxRetries < (attempt : Int) := by
      rw [hm]; exact not_lt.mpr (by exact_mod_cast le_of_lt (lt_of_le_of_lt hle hj))
    have hA2 : ¬ ((attempt : Int) = opts.MaxRetries) := by
      rw [hm]; exact_mod_cast Nat.ne_of_lt (lt_of_le_of_lt hle hj)
    by_cases hA : attempt = j
    · subst hA
      simp [retryLoop, hlt, hfn attempt le_rfl, hr attempt le_rfl, hA2, hcj]
    · have haj : attempt < j := lt_of_le_of_ne hle hA
      have ih2 := ih (attempt + 1) (nextDelayCalc opts cd (rnd attempt))
        (some (errs attempt)) (by omega) (by omega)
      refine ⟨?_, ?_, ?_⟩ <;>
        simp [retryLoop, hlt, hfn attempt (le_of_lt haj), hr attempt (le_of_lt haj),
          hA2, hc attempt haj, ih2.1, ih2.2.1, ih2.2.2] <;> omega

/-- C4: if the cancellation signal fires during the wait that follows
invocation j (every earlier wait completing, every invocation through j
failing retryably, j < MaxRetries), then Retry returns the cancellation
sentinel, a value structurally distinct from any operation failure, after
exactly j+1 invocations, and RetryWithResult on an operation with the same
error projection does the same. -/
theorem retry_cancelled_during_wait {T E : Type} (opts : RetryOptions E)
    (ctx : Nat → Bool) (fn : Nat → Option E) (fnT : Nat → T × Option E)
    (rnd : Nat → ℚ) (zero : T) (m j : Nat) (errs : Nat → E)
    (hm : opts.MaxRetries = (m : Int)) (hj : j < m)
    (hfn : ∀ i, i ≤ j → fn i = some (errs i))
    (hr : ∀ i, i ≤ j → nonRetryable opts (errs i) = false)
    (hc : ∀ i, i < j → ctx i = false)
    (hcj : ctx j = true)
    (hT : ∀ i, (fnT i).2 = fn i) :
    (Retry ctx fn opts rnd).1 = some RErr.canceled ∧
    (Retry ctx fn opts rnd).2.1 = j + 1 ∧
    (∀ e : E, (RErr.canceled : RErr E) ≠ RErr.op e) ∧
    (RetryWithResult ctx fnT opts rnd zero).1.2 = some RErr.canceled ∧
    (RetryWithResult ctx fnT opts rnd zero).2.1 = j + 1 := by
  have h := retryLoop_cancelAt opts ctx fn rnd m j errs hm hj hfn hr hc hcj
    (m + 1) 0 opts.BaseDelay none (by omega) (by omega)
  have hfnT : (fun i => (fnT i).2) = fn := funext hT
  have hw := retryWithResultLoop_eq fnT opts ctx rnd (opts.MaxRetries.toNat + 1)
    0 opts.BaseDelay zero none
  rw [hfnT] at hw
  have hRetry : (Retry ctx fn opts rnd).1 = some RErr.canceled ∧
      (Retry ctx fn opts rnd).2.1 = j + 1 := by
    unfold Retry
    rw [hm, Int.toNat_natCast]
    exact ⟨h.1, by simpa using h.2.1⟩
  refine ⟨hRetry.1, hRetry.2, fun e => by simp, ?_, ?_⟩
  · rw [RetryWithResult, hw.1]
    exact hRetry.1
  · rw [RetryWithResult, congrArg Prod.fst hw.2]
    exact hRetry.2

/-- Witness for C4 at a concrete input: MaxRetries = 5, failures on the first
two invocations, the wait after invocation 0 completes, the wait after
invocation 1 is cancelled: both executors report the cancellation sentinel
after exactly 2 invocations. -/
theorem retry_cancelled_during_wait_witness :
    (Retry (fun i => decide (i = 1)) (fun i => some i)
        (⟨5, 5, 50, 2, 0, some fun _ => true⟩ : RetryOptions Nat) (fun _ => 0)).1
      = some RErr.canceled ∧
    (Retry (fun i => decide (i = 1)) (fun i => some i)
        (⟨5, 5, 50, 2, 0, some fun _ => true⟩ : RetryOptions Nat) (fun _ => 0)).2.1
      = 1 + 1 ∧
    (∀ e : Nat, (RErr.canceled : RErr Nat) ≠ RErr.op e) ∧
    (RetryWithResult (fun i => decide (i = 1)) (fun i => (i * 10, some i))
        (⟨5, 5, 50, 2, 0, some fun _ => true⟩ : RetryOptions Nat) (fun _ => 0) 0).1.2
      = some RErr.canceled ∧
    (RetryWithResult (fun i => decide (i = 1)) (fun i => (i * 10, some i))
        (⟨5, 5, 50, 2, 0, some fun _ => true⟩ : RetryOptions Nat) (fun _ => 0) 0).2.1
      = 1 + 1 :=
  retry_cancelled_during_wait ⟨5, 5, 50, 2, 0, some fun _ => true⟩
    (fun i => decide (i = 1)) (fun i => some i) (fun i => (i * 10, some i))
    (fun _ => 0) 0 5 1 (fun i => i) rfl (by omega)
    (fun _ _ => rfl) (fun _ _ => rfl) (fun i hi => by simp [Nat.lt_one_iff.mp hi])
    (by simp) (fun _ => rfl)

/-- Helper: the capped next delay never exceeds MaxDelay, whatever the
current delay and the jitter draw. -/
theorem nextDelayCalc_le_maxDelay {E : Type} (opts : RetryOptions E) (c : Int) (r : ℚ) :
    nextDelayCalc opts c r ≤ opts.MaxDelay := by
  simp only [nextDelayCalc]
  by_cases h : truncQ ((c : ℚ) * opts.Factor * jitterMul opts r) > opts.MaxDelay
  · rw [if_pos h]
  · rw [if_neg h]; omega

/-- Helper: the delay computation is exactly the cap applied to the
jitter-scaled delay (cap after jitter). -/
theorem nextDelayCalc_min {E : Type} (opts : RetryOptions E) (c : Int) (r : ℚ) :
    nextDelayCalc opts c r
      = min opts.MaxDelay (truncQ ((c : ℚ) * opts.Factor * jitterMul opts r)) := by
  simp only [nextDelayCalc]
  rcases le_or_lt (truncQ ((c : ℚ) * opts.Factor * jitterMul opts r)) opts.MaxDelay with h | h
  · rw [if_neg (not_lt.mpr h), min_eq_right h]
  · rw [if_pos h, min_eq_left (le_of_lt h)]

/-- Helper: every completed wait recorded by the loop is bounded by MaxDelay. -/
theorem retryLoop_waits_le {E : Type} (opts : RetryOptions E) (ctx : Nat → Bool)
    (fn : Nat → Option E) (rnd : Nat → ℚ) :
    ∀ fuel attempt cd le w, w ∈ (retryLoop fn opts ctx rnd attempt cd le fuel).2.2 →
      w ≤ opts.MaxDelay := by
  intro fuel
  induction fuel with
  | zero => intro attempt cd le w hw; simp [retryLoop] at hw
  | succ fuel ih =>
    intro attempt cd le w hw
    by_cases hlt : opts.MaxRetries < (attempt : Int)
    · simp [retryLoop, hlt] at hw
    · cases hf : fn attempt with
      | none => simp [retryLoop, hlt, hf] at hw
      | some e =>
        by_cases hnr : nonRetryable opts e = true
        · simp [retryLoop, hlt, hf, hnr] at hw
        · by_cases hA : (attempt : Int) = opts.MaxRetries
          · simp [retryLoop, hlt, hf, hnr, hA] at hw
          · by_cases hctx : ctx attempt = true
            · simp [retryLoop, hlt, hf, hnr, hA, hctx] at hw
            · simp [retryLoop, hlt, hf, hnr, hA, hctx] at hw
              rcases hw with rfl | hw
              · exact nextDelayCalc_le_maxDelay opts cd (rnd attempt)
              · exact ih _ _ _ w hw

/-- C6: every completed inter-attempt wait is at most MaxDelay; the cap is
applied after the jitter multiplier (the computed delay is the minimum of
MaxDelay and the jitter-scaled delay, so even a maximal jitter draw is
clamped); and on a continuing iteration the clamped value is both the wait
performed and the currentDelay passed to the next iteration. -/
theorem retry_wait_capped {E : Type} (opts : RetryOptions E) (ctx : Nat → Bool)
    (fn : Nat → Option E) (rnd : Nat → ℚ) (attempt : Nat) (cd : Int)
    (le : Option E) (fuel : Nat) (w : Int)
    (hw : w ∈ (retryLoop fn opts ctx rnd attempt cd le fuel).2.2) :
    w ≤ opts.MaxDelay ∧
    (∀ c r, nextDelayCalc opts c r
        = min opts.MaxDelay (truncQ ((c : ℚ) * opts.Factor * jitterMul opts r))) ∧
    (∀ a c l f e, fn a = some e → nonRetryable opts e = false →
        ¬ opts.MaxRetries < (a : Int) → ¬ ((a : Int) = opts.MaxRetries) →
        ctx a = false →
        retryLoop fn opts ctx rnd a c l (f + 1)
          = ((retryLoop fn opts ctx rnd (a + 1) (nextDelayCalc opts c (rnd a))
                (some e) f).1,
             (retryLoop fn opts ctx rnd (a + 1) (nextDelayCalc opts c (rnd a))
                (some e) f).2.1 + 1,
             nextDelayCalc opts c (rnd a)
               :: (retryLoop fn opts ctx rnd (a + 1) (nextDelayCalc opts c (rnd a))
                    (some e) f).2.2)) := by
  refine ⟨retryLoop_waits_le opts ctx fn rnd fuel attempt cd le w hw,
    nextDelayCalc_min opts, ?_⟩
  intro a c l f e hf hnr hlt hA hctx
  simp [retryLoop, hf, hnr, hlt, hA, hctx]

/-- Witness for C6 at a concrete input: with MaxDelay = 5, BaseDelay = 10 and
Factor = 2, the single completed wait of the run is the clamped value 5,
which is at most MaxDelay. -/
theorem retry_wait_capped_witness :
    (5 : Int) ≤ (⟨1, 10, 5, 2, 0, none⟩ : RetryOptions Nat).MaxDelay :=
  (retry_wait_capped ⟨1, 10, 5, 2, 0, none⟩ (fun _ => false) (fun _ => some 0)
      (fun _ => 0) 0 10 none 2 5
      (by norm_num [retryLoop, nonRetryable, nextDelayCalc, jitterMul, truncQ,
        Rat.floor])).1

/-- C8: an absent retryability predicate (RetryableFunc = nil) makes every
error retryable: Retry behaves identically to the same options with a
predicate that always returns true. -/
theorem retry_nil_predicate_retries_all {E : Type} (ctx : Nat → Bool)
    (fn : Nat → Option E) (rnd : Nat → ℚ) (opts : RetryOptions E) :
    Retry ctx fn { opts with RetryableFunc := none } rnd
      = Retry ctx fn { opts with RetryableFunc := some fun _ => true } rnd := by
  have key : ∀ fuel attempt cd le,
      retryLoop fn { opts with RetryableFunc := none } ctx rnd attempt cd le fuel
        = retryLoop fn { opts with RetryableFunc := some fun _ => true } ctx rnd
            attempt cd le fuel := by
    intro fuel
    induction fuel with
    | zero => intro attempt cd le; rfl
    | succ fuel ih =>
      intro attempt cd le
      by_cases hlt : opts.MaxRetries < (attempt : Int)
      · simp [retryLoop, hlt]
      · cases hf : fn attempt with
        | none => simp [retryLoop, hlt, hf]
        | some e =>
          by_cases hA : (attempt : Int) = opts.MaxRetries
          · simp [retryLoop, hlt, hf, hA, nonRetryable]
          · by_cases hctx : ctx attempt = true
            · simp [retryLoop, hlt, hf, hA, hctx, nonRetryable, nextDelayCalc,
                jitterMul]
            · simp [retryLoop, hlt, hf, hA, hctx, nonRetryable, nextDelayCalc,
                jitterMul, ih]
  unfold Retry
  exact key _ 0 _ none

/-- Helper: an iteration of the loop whose loop condition holds performs at
least one invocation, whatever branch it takes. -/
theorem retryLoop_calls_pos {E : Type} (opts : RetryOptions E) (ctx : Nat → Bool)
    (fn : Nat → Option E) (rnd : Nat → ℚ) (attempt : Nat) (cd : Int)
    (le : Option E) (fuel : Nat)
    (h : ¬ opts.MaxRetries < (attempt : Int)) :
    1 ≤ (retryLoop fn opts ctx rnd attempt cd le (fuel + 1)).2.1 := by
  simp only [retryLoop]
  rw [if_neg h]
  cases hf : fn attempt with
  | none => simp
  | some e =>
    by_cases hnr : nonRetryable opts e = true
    · simp [hnr]
    · by_cases hA : (attempt : Int) = opts.MaxRetries
      · simp [hnr, hA]
      · by_cases hctx : ctx attempt = true
        · simp [hnr, hA, hctx]
        · simp [hnr, hA, hctx]

/-- C9: cancellation is checked only at the inter-attempt wait: whenever the
loop is entered at all (MaxRetries >= 0), the operation is invoked at least
once, for every context, including one already cancelled at call time; and
Retry never returns the cancellation sentinel without at least one
invocation. -/
theorem retry_invokes_before_cancellation {E : Type} (opts : RetryOptions E)
    (ctx : Nat → Bool) (fn : Nat → Option E) (rnd : Nat → ℚ) :
    (0 ≤ opts.MaxRetries → 1 ≤ (Retry ctx fn opts rnd).2.1) ∧
    ((Retry ctx fn opts rnd).1 = some RErr.canceled →
      1 ≤ (Retry ctx fn opts rnd).2.1) := by
  have hpos : 0 ≤ opts.MaxRetries → 1 ≤ (Retry ctx fn opts rnd).2.1 := by
    intro h0
    have hlt : ¬ opts.MaxRetries < ((0 : Nat) : Int) := by
      rw [Nat.cast_zero]; exact not_lt.mpr h0
    exact retryLoop_calls_pos opts ctx fn rnd 0 opts.BaseDelay none
      opts.MaxRetries.toNat hlt
  refine ⟨hpos, fun hres => ?_⟩
  by_cases h0 : 0 ≤ opts.MaxRetries
  · exact hpos h0
  · exfalso
    have hneg : opts.MaxRetries < 0 := not_le.mp h0
    have ht : opts.MaxRetries.toNat = 0 := Int.toNat_of_nonpos (le_of_lt hneg)
    unfold Retry at hres
    rw [ht] at hres
    simp [retryLoop, hneg] at hres

/-- Witness for C9 at a concrete input: a context already cancelled when
Retry is called (every wait would be interrupted) still sees one invocation. -/
theorem retry_invokes_before_cancellation_witness :
    1 ≤ (Retry (fun _ => true) (fun _ => some 0)
        (⟨5, 10, 100, 2, 0, none⟩ : RetryOptions Nat) (fun _ => 0)).2.1 :=
  (retry_invokes_before_cancellation ⟨5, 10, 100, 2, 0, none⟩ (fun _ => true)
      (fun _ => some 0) (fun _ => 0)).1 (by norm_num)

/-- C10: a negative MaxRetries means the loop body is never entered: Retry
returns a nil error with zero invocations and no waits, and RetryWithResult
additionally returns the zero value of the result type. -/
theorem retry_negative_maxretries {T E : Type} (opts : RetryOptions E)
    (ctx : Nat → Bool) (fn : Nat → Option E) (fnT : Nat → T × Option E)
    (rnd : Nat → ℚ) (zero : T)
    (h : opts.MaxRetries < 0) :
    Retry ctx fn opts rnd = (none, 0, []) ∧
    RetryWithResult ctx fnT opts rnd zero = ((zero, none), 0, []) := by
  have ht : opts.MaxRetries.toNat = 0 := Int.toNat_of_nonpos (le_of_lt h)
  constructor
  · unfold Retry; rw [ht]; simp [retryLoop, h]
  · unfold RetryWithResult; rw [ht]; simp [retryWithResultLoop, h]

/-- Witness for C10 at a concrete input: MaxRetries = -1 yields zero
invocations and a nil error from both executors. -/
theorem retry_negative_maxretries_witness :
    Retry (fun _ => false) (fun _ => some 0)
        (⟨-1, 5, 50, 2, 0, none⟩ : RetryOptions Nat) (fun _ => 0) = (none, 0, []) ∧
    RetryWithResult (fun _ => false) (fun _ => (1, some 0))
        (⟨-1, 5, 50, 2, 0, none⟩ : RetryOptions Nat) (fun _ => 0) 0
      = ((0, none), 0, []) :=
  retry_negative_maxretries ⟨-1, 5, 50, 2, 0, none⟩ (fun _ => false)
    (fun _ => some 0) (fun _ => (1, some 0)) (fun _ => 0) 0 (by norm_num)

/-- C2, counterexample: under policy (MaxRetries 3, BaseDelay 100ms,
MaxDelay 1s, Factor 2, Jitter 0), with failures on invocations 0-2 and
success on invocation 3, the completed waits are 200ms, 400ms, 800ms -- not
the 100ms, 200ms, 400ms the claim states, and the first wait is not
BaseDelay: the code multiplies the current delay by Factor before the first
wait. -/
theorem retry_scenario_counterexample :
    (Retry (fun _ => false) (fun n => if n < 3 then some () else none)
        (⟨3, 100000000, 1000000000, 2, 0, none⟩ : RetryOptions Unit) (fun _ => 0)).2.2
      = [200000000, 400000000, 800000000] ∧
    ([200000000, 400000000, 800000000] : List Int)
      ≠ [100000000, 200000000, 400000000] ∧
    (200000000 : Int) ≠ (⟨3, 100000000, 1000000000, 2, 0, none⟩ : RetryOptions Unit).BaseDelay := by
  refine ⟨?_, by decide, by decide⟩
  norm_num [Retry, retryLoop, nonRetryable, nextDelayCalc, jitterMul, truncQ,
    Rat.floor]

/-- C2, amended: under policy (MaxRetries 3, BaseDelay 100ms, MaxDelay 1s,
Factor 2, Jitter 0), with failures on invocations 0-2 and success on
invocation 3, the executor performs 4 invocations and returns the success,
and the inter-attempt waits are 200ms, 400ms and 800ms (1400ms in total):
the delay before the first retry is BaseDelay * Factor, since the code
scales the current delay by Factor before every wait, including the first. -/
theorem retry_scenario_amended :
    Retry (fun _ => false) (fun n => if n < 3 then some () else none)
        (⟨3, 100000000, 1000000000, 2, 0, none⟩ : RetryOptions Unit) (fun _ => 0)
      = (none, 4, [200000000, 400000000, 800000000]) ∧
    (200000000 + 400000000 + 800000000 : Int) = 1400000000 := by
  refine ⟨?_, by norm_num⟩
  norm_num [Retry, retryLoop, nonRetryable, nextDelayCalc, jitterMul, truncQ,
    Rat.floor]

end RetryPkg
